import Mathlib

/-!
Verification of the `try_find` iterator adapter from `src/try_find.rs`.

The Rust code extends any iterator with
`try_find(f) : Tryable` where `f : &Item -> R`, `R : Try<Ok = bool>`.
The only provided instantiation is `Result<Option<Item>, E>` with the
predicate returning `Result<bool, E>`, so we model:

* the iterator as a `List α` (the remaining, not yet consumed items);
  consuming an item removes it from the front, so a function on the
  iterator returns the remaining list alongside its result;
* `Result<T, E>` as `Except ε τ`;
* `Iterator::try_for_each` as `tryForEach` below: it calls the closure on
  each item in order and stops at the first `Err`, consuming that item;
* `Option::transpose` as `transpose`;
* `try_find` exactly as the source writes it: a `tryForEach` whose closure
  encodes "match" as `Err(Ok(x))` and "predicate failure" as `Err(Err(e))`,
  followed by the `Option`/`transpose` plumbing and `from_ok`/`from_error`
  (identities at the `Result` instantiation).
-/

namespace IterTry

universe u v

variable {α : Type u} {β : Type v} {ε : Type v}

instance {ε' α' : Type _} [DecidableEq ε'] [DecidableEq α'] :
    DecidableEq (Except ε' α')
  | Except.ok a, Except.ok b =>
    if h : a = b then isTrue (by rw [h])
    else isFalse (by intro hc; cases hc; exact h rfl)
  | Except.ok _, Except.error _ => isFalse (by intro hc; cases hc)
  | Except.error _, Except.ok _ => isFalse (by intro hc; cases hc)
  | Except.error a, Except.error b =>
    if h : a = b then isTrue (by rw [h])
    else isFalse (by intro hc; cases hc; exact h rfl)

/-- Rust `Iterator::try_for_each` specialized to `Result<(), β>`: apply `f`
to each item in order; on the first `Err` stop and return it, the failing
item having been consumed.  Returns the result together with the remaining
(unconsumed) items of the iterator. -/
def tryForEach (f : α → Except β Unit) : List α → Except β Unit × List α
  | [] => (Except.ok (), [])
  | x :: xs =>
    match f x with
    | Except.ok _ => tryForEach f xs
    | Except.error e => (Except.error e, xs)

/-- Rust `Option::transpose` on `Option<Result<T, E>>`. -/
def transpose : Option (Except ε α) → Except ε (Option α)
  | none => Except.ok none
  | some (Except.ok x) => Except.ok (some x)
  | some (Except.error e) => Except.error e

/-- The `try_find` method of `TryFindExt`, at the provided
`Result<Option<Item>, E>` instantiation, with the iterator state passed
explicitly: the first component is the returned `Tryable`, the second the
remaining items of the iterator after the call. -/
def try_find (f : α → Except ε Bool) (iter : List α) :
    Except ε (Option α) × List α :=
  let done := tryForEach (fun x =>
    match f x with
    | Except.ok false => Except.ok ()
    | Except.ok true => Except.error (Except.ok x)
    | Except.error e => Except.error (Except.error e)) iter
  let result := transpose
    (match done.1 with
     | Except.ok _ => none
     | Except.error x => some x)
  (match result with
   | Except.ok x => Except.ok x
   | Except.error e => Except.error e,
   done.2)

/-- The list of items passed to the predicate by `try_find f`, in call
order: the loop hands items to `f` one at a time and stops right after the
first non-`Ok(false)` outcome, so the trace follows the same recursion as
the `tryForEach` driving the search. -/
def inspected (f : α → Except ε Bool) : List α → List α
  | [] => []
  | x :: xs =>
    match f x with
    | Except.ok false => x :: inspected f xs
    | _ => [x]

@[simp] theorem try_find_nil (f : α → Except ε Bool) :
    try_find f ([] : List α) = (Except.ok none, []) := rfl

theorem try_find_cons (f : α → Except ε Bool) (x : α) (xs : List α) :
    try_find f (x :: xs) =
      match f x with
      | Except.ok false => try_find f xs
      | Except.ok true => (Except.ok (some x), xs)
      | Except.error e => (Except.error e, xs) := by
  cases hfx : f x with
  | ok b =>
    cases b with
    | false =>
      simp only [try_find, tryForEach, hfx]
    | true =>
      simp only [try_find, tryForEach, hfx, transpose]
  | error e =>
    simp only [try_find, tryForEach, hfx, transpose]

@[simp] theorem inspected_nil (f : α → Except ε Bool) :
    inspected f ([] : List α) = [] := rfl

theorem inspected_cons (f : α → Except ε Bool) (x : α) (xs : List α) :
    inspected f (x :: xs) =
      match f x with
      | Except.ok false => x :: inspected f xs
      | Except.ok true => [x]
      | Except.error _ => [x] := by
  cases hfx : f x with
  | ok b => cases b <;> simp [inspected, hfx]
  | error e => simp [inspected, hfx]

/-- Shared helper: the items handed to the predicate, followed by the items
the call left unconsumed, reassemble the original sequence. -/
theorem inspected_append_remaining (f : α → Except ε Bool) (it : List α) :
    inspected f it ++ (try_find f it).2 = it := by
  induction it with
  | nil => rfl
  | cons x xs ih =>
    rw [try_find_cons, inspected_cons]
    cases hfx : f x with
    | ok b => cases b <;> simp [ih]
    | error e => simp

/-- The naive reference loop the spec describes: take items in order; on
`Ok(false)` continue, on `Ok(true)` return `Ok(Some(item))`, on `Err(e)`
return `Err(e)`; on exhaustion return `Ok(None)`. -/
def naiveFind (f : α → Except ε Bool) : List α → Except ε (Option α)
  | [] => Except.ok none
  | x :: xs =>
    match f x with
    | Except.ok false => naiveFind f xs
    | Except.ok true => Except.ok (some x)
    | Except.error e => Except.error e

/-- The predicate used by `test_try_find` in the source: `Ok(true)` at `2`,
`Err(())` at `4`, `Ok(false)` otherwise. -/
def testfn (x : Int) : Except Unit Bool :=
  if x = 2 then Except.ok true
  else if x = 4 then Except.error ()
  else Except.ok false

/-- Modelled from the spec: the doc example's `s.parse::<i32>()` call is
Rust standard-library code not present in this repository; we model it as
parsing a nonnegative decimal numeral, failing on an empty string or on any
non-digit character — the only behavior the example exercises. -/
def parseNum (s : String) : Except Unit Nat :=
  if s.data ≠ [] ∧ ∀ c ∈ s.data, c.isDigit = true then
    Except.ok (s.data.foldl (fun acc c => 10 * acc + (c.toNat - Char.toNat '0')) 0)
  else Except.error ()

/-- The doc example's predicate: parse the string and compare with the
number searched for, propagating the parse failure. -/
def is_my_num (search : Nat) (s : String) : Except Unit Bool :=
  match parseNum s with
  | Except.ok n => Except.ok (n == search)
  | Except.error e => Except.error e

section Claims

/-- C1: if the predicate returns `Ok(true)` on the k-th item and
`Ok(false)` on every item before it, `try_find` returns `Ok(Some(item_k))`,
and no item after the k-th is ever passed to the predicate: the items
handed to the predicate are exactly the first `k + 1`. -/
theorem try_find_first_match (f : α → Except ε Bool) (it : List α)
    (k : Nat) (hk : k < it.length)
    (hmatch : f (it.get ⟨k, hk⟩) = Except.ok true)
    (hbefore : ∀ x ∈ it.take k, f x = Except.ok false) :
    (try_find f it).1 = Except.ok (some (it.get ⟨k, hk⟩)) ∧
    inspected f it = it.take (k + 1) := by
  induction it generalizing k with
  | nil => exact absurd hk (by simp)
  | cons x xs ih =>
    cases k with
    | zero =>
      rw [try_find_cons, inspected_cons]
      simp only [List.get] at hmatch
      simp [hmatch]
    | succ j =>
      have hx : f x = Except.ok false := hbefore x (by simp)
      have hk' : j < xs.length := by simpa using hk
      have hmatch' : f (xs.get ⟨j, hk'⟩) = Except.ok true := by
        simpa using hmatch
      have hbefore' : ∀ y ∈ xs.take j, f y = Except.ok false := by
        intro y hy
        exact hbefore y (by simp [hy])
      obtain ⟨h1, h2⟩ := ih j hk' hmatch' hbefore'
      rw [try_find_cons, inspected_cons]
      simp [hx, h1, h2]

/-- C1 witness: `testfn` on `[1, 2, 3]` with `k = 1`. -/
theorem try_find_first_match_witness :
    (try_find testfn ([1, 2, 3] : List Int)).1 = Except.ok (some 2) ∧
    inspected testfn ([1, 2, 3] : List Int) = [1, 2] :=
  try_find_first_match testfn [1, 2, 3] 1 (by decide) (by decide) (by decide)

/-- C2: if the predicate returns `Err(e)` on the k-th item and `Ok(false)`
on every item before it, `try_find` returns exactly `Err(e)` (the error
value is relayed unchanged; as `ε` and `e` are arbitrary it cannot be
inspected), and no item after the k-th is ever passed to the predicate. -/
theorem try_find_first_failure (f : α → Except ε Bool) (it : List α)
    (k : Nat) (e : ε) (hk : k < it.length)
    (hfail : f (it.get ⟨k, hk⟩) = Except.error e)
    (hbefore : ∀ x ∈ it.take k, f x = Except.ok false) :
    (try_find f it).1 = Except.error e ∧
    inspected f it = it.take (k + 1) := by
  induction it generalizing k with
  | nil => exact absurd hk (by simp)
  | cons x xs ih =>
    cases k with
    | zero =>
      rw [try_find_cons, inspected_cons]
      simp only [List.get] at hfail
      simp [hfail]
    | succ j =>
      have hx : f x = Except.ok false := hbefore x (by simp)
      have hk' : j < xs.length := by simpa using hk
      have hfail' : f (xs.get ⟨j, hk'⟩) = Except.error e := by
        simpa using hfail
      have hbefore' : ∀ y ∈ xs.take j, f y = Except.ok false := by
        intro y hy
        exact hbefore y (by simp [hy])
      obtain ⟨h1, h2⟩ := ih j hk' hfail' hbefore'
      rw [try_find_cons, inspected_cons]
      simp [hx, h1, h2]

/-- C2 witness: `testfn` on `[1, 4]` with `k = 1`, error `()`. -/
theorem try_find_first_failure_witness :
    (try_find testfn ([1, 4] : List Int)).1 = Except.error () ∧
    inspected testfn ([1, 4] : List Int) = [1, 4] :=
  try_find_first_failure testfn [1, 4] 1 () (by decide) (by decide) (by decide)

/-- C3: if the predicate returns `Ok(false)` on every item, `try_find`
returns `Ok(None)` and the predicate is invoked exactly once per item, in
producer order: the inspection trace is the whole sequence. -/
theorem try_find_all_no_match (f : α → Except ε Bool) (it : List α)
    (h : ∀ x ∈ it, f x = Except.ok false) :
    (try_find f it).1 = Except.ok none ∧ inspected f it = it := by
  induction it with
  | nil => exact ⟨rfl, rfl⟩
  | cons x xs ih =>
    have hx : f x = Except.ok false := h x (by simp)
    obtain ⟨h1, h2⟩ := ih fun y hy => h y (by simp [hy])
    rw [try_find_cons, inspected_cons]
    simp [hx, h1, h2]

/-- C3 witness: `testfn` on `[1, 3]`. -/
theorem try_find_all_no_match_witness :
    (try_find testfn ([1, 3] : List Int)).1 = Except.ok none ∧
    inspected testfn ([1, 3] : List Int) = [1, 3] :=
  try_find_all_no_match testfn [1, 3] (by decide)

/-- C4: on an empty sequence `try_find` returns `Ok(None)` for every
predicate, leaves the producer empty, and passes no item to the
predicate. -/
theorem try_find_empty (f : α → Except ε Bool) :
    try_find f ([] : List α) = (Except.ok none, []) ∧
    inspected f ([] : List α) = [] :=
  ⟨rfl, rfl⟩

/-- C5: after a call, the producer holds exactly the items after the
inspected ones — its position advanced one step per inspected item (the
stopping item included) and its next element is the first unvisited one;
a second call (here with an arbitrary predicate `g`) continues from that
position, the two traces and the final remainder reassembling the original
sequence, so the position only ever moves forward. -/
theorem try_find_position (f g : α → Except ε Bool) (it : List α) :
    inspected f it ++ (try_find f it).2 = it ∧
    (try_find f it).2 = it.drop (inspected f it).length ∧
    inspected f it ++ inspected g (try_find f it).2 ++
      (try_find g (try_find f it).2).2 = it := by
  refine ⟨inspected_append_remaining f it, ?_, ?_⟩
  · rw [← List.drop_left (inspected f it) (try_find f it).2,
      inspected_append_remaining f it]
  · rw [List.append_assoc, inspected_append_remaining g,
      inspected_append_remaining f]

/-- C6: the call returns `Err(e)` exactly when the predicate returned
`Err(e)` on one of the inspected items; exhaustion is never an error, and
the only error values ever returned are ones the predicate produced. -/
theorem try_find_error_iff (f : α → Except ε Bool) (it : List α) (e : ε) :
    (try_find f it).1 = Except.error e ↔
      ∃ x ∈ inspected f it, f x = Except.error e := by
  induction it with
  | nil => simp
  | cons x xs ih =>
    rw [try_find_cons, inspected_cons]
    cases hfx : f x with
    | ok b =>
      cases b with
      | false => simpa [hfx] using ih
      | true => simp [hfx]
    | error eprime => simp [hfx]

/-- C7: the inspected items form a prefix of the sequence (each visited
once, in producer order); every inspected item except the last yielded
`Ok(false)`; and whenever the traversal stopped early, the last inspected
item's outcome was a match or a failure, never `Ok(false)`. -/
theorem try_find_inspection_invariant (f : α → Except ε Bool) (it : List α) :
    inspected f it = it.take (inspected f it).length ∧
    (∀ i (h : i + 1 < (inspected f it).length),
      f ((inspected f it).get ⟨i, Nat.lt_of_succ_lt h⟩) = Except.ok false) ∧
    ((inspected f it).length < it.length →
      ∃ hne : inspected f it ≠ [],
        f ((inspected f it).getLast hne) ≠ Except.ok false) := by
  induction it with
  | nil => exact ⟨rfl, by simp, by simp⟩
  | cons x xs ih =>
    cases hfx : f x with
    | ok b =>
      cases b with
      | false =>
        have hins : inspected f (x :: xs) = x :: inspected f xs := by
          rw [inspected_cons, hfx]
        obtain ⟨ih1, ih2, ih3⟩ := ih
        rw [hins]
        refine ⟨by simpa using ih1, ?_, ?_⟩
        · intro i h
          cases i with
          | zero => simpa using hfx
          | succ j => simpa using ih2 j (by simpa using h)
        · intro hlt
          have hlt' : (inspected f xs).length < xs.length := by
            simpa using hlt
          obtain ⟨hne, hlast⟩ := ih3 hlt'
          refine ⟨by simp, ?_⟩
          rwa [List.getLast_cons hne]
      | true =>
        have hins : inspected f (x :: xs) = [x] := by
          rw [inspected_cons, hfx]
        rw [hins]
        refine ⟨by simp, ?_, ?_⟩
        · intro i h
          simp at h
        · intro _
          exact ⟨by simp, by simp [hfx]⟩
    | error eprime =>
      have hins : inspected f (x :: xs) = [x] := by
        rw [inspected_cons, hfx]
      rw [hins]
      refine ⟨by simp, ?_, ?_⟩
      · intro i h
        simp at h
      · intro _
        exact ⟨by simp, by simp [hfx]⟩

/-- C8: the four assertions of `test_try_find`: `testfn` over `[1,2,3,4]`
finds `2`; over `[1,3,4]` it fails with `Err(())`; over `[]` it yields
`Ok(None)`; and probing `[1,2,3,4,5,6,7]` twice with the same producer
yields `Ok(Some(2))` then `Err(())`, the next unconsumed item being `5`. -/
theorem test_try_find_scenarios :
    (try_find testfn ([1, 2, 3, 4] : List Int)).1 = Except.ok (some 2) ∧
    (try_find testfn ([1, 3, 4] : List Int)).1 = Except.error () ∧
    (try_find testfn ([] : List Int)).1 = Except.ok none ∧
    (try_find testfn ([1, 2, 3, 4, 5, 6, 7] : List Int)).1
      = Except.ok (some 2) ∧
    (try_find testfn
      (try_find testfn ([1, 2, 3, 4, 5, 6, 7] : List Int)).2).1
      = Except.error () ∧
    (try_find testfn
      (try_find testfn ([1, 2, 3, 4, 5, 6, 7] : List Int)).2).2.head?
      = some 5 := by
  decide

/-- C9: the source's implementation of `try_find` through `try_for_each`
(stops encoded as `Err(Ok(item))` and `Err(Err(e))`, then transposed)
computes, on every sequence and predicate, the same result as the naive
reference loop. -/
theorem try_find_eq_naiveFind (f : α → Except ε Bool) (it : List α) :
    (try_find f it).1 = naiveFind f it := by
  induction it with
  | nil => rfl
  | cons x xs ih =>
    rw [try_find_cons]
    cases hfx : f x with
    | ok b => cases b <;> simp [naiveFind, hfx, ih]
    | error e => simp [naiveFind, hfx]

/-- C10: a predicate failure ahead of a later match decides the result:
searching `["1", "2", "lol", "NaN", "5"]` for the number `5` with the
parsing predicate returns the parse error raised at `"lol"`, even though
the later item `"5"` would have matched. -/
theorem try_find_error_trumps_later_match :
    (try_find (is_my_num 5) ["1", "2", "lol", "NaN", "5"]).1
      = Except.error () ∧
    is_my_num 5 "5" = Except.ok true ∧
    "5" ∈ ["1", "2", "lol", "NaN", "5"] := by
  decide

end Claims

end IterTry
